import Mathlib

/-!
Session manager (`session/manager.go`)

A shallow embedding of the session registry `Manager` and of its operations
`NewManager`, `New`, `Get`, `Del`, `Save`, `Count`, `Shutdown` and
`genSessionID`, followed by the properties proved about them.

Modelling conventions.

* `*Type` (a pointer to a session) is `Option Nat`: `none` is the nil pointer,
  `some a` the session allocated at address `a`.  Two pointers are the same
  session exactly when they are equal.
* `error` is `Option Error`: `none` is the nil error.
* `map[string]*Type` is a list of key/value pairs whose keys are pairwise
  distinct.  The order of the list stands for the (unspecified) order in which
  `range` visits the map; every statement below holds for every order.
* The calls the manager makes on its collaborators (`stat.Created()`,
  `stat.Removed()`, `s.Stop()`) are recorded, in order, in `events`.
* The lock `mu` is not modelled: every operation is executed atomically.
* `newSession` (the session factory) and the outcome of
  `io.ReadFull(rand.Reader, b)` are parameters of `New`.
* Sessions are distinct objects: the factory constructs a new session at every
  call, so no session is stored under two keys.  The statements that follow a
  single session through the mapping say so with `values.Nodup`, which every
  operation preserves (`run_preserves_values_nodup`).
-/

namespace session

/-- The Go type `*Type`: `none` is nil. -/
abbrev TypePtr := Option Nat

/-- Go `error` values that are not nil. -/
inductive Error where
  | ErrNoSuchSession
  | other (msg : String)
  deriving DecidableEq, Repr

/-- The configuration handed to the session factory, opaque to the manager. -/
structure Config where
  tag : Nat
  deriving DecidableEq, Repr

/-- A call made by the manager on one of its collaborators. -/
inductive Event where
  | Created
  | Removed
  | Stop (s : TypePtr)
  deriving DecidableEq, Repr

/-- The Go type `map[string]*Type`: finitely many entries, no key twice. -/
structure SessionMap where
  entries : List (String × TypePtr)
  nodup : (entries.map Prod.fst).Nodup

namespace SessionMap

/-- The keys of the map. -/
def keys (sm : SessionMap) : List String := sm.entries.map Prod.fst

/-- The values of the map, one for each entry. -/
def values (sm : SessionMap) : List TypePtr := sm.entries.map Prod.snd

/-- The expression `make(map[string]*Type)`. -/
def empty : SessionMap := ⟨[], List.nodup_nil⟩

/-- The expression `s, ok := sm[id]`: `none` when `ok` is false. -/
def lookup (sm : SessionMap) (id : String) : Option TypePtr :=
  (sm.entries.find? (fun e => decide (e.1 = id))).map Prod.snd

/-- The entries left by `delete(sm, id)`. -/
def deleteEntries (id : String) (l : List (String × TypePtr)) : List (String × TypePtr) :=
  l.filter (fun e => decide (e.1 ≠ id))

/-- The statement `delete(sm, id)`. -/
def delete (sm : SessionMap) (id : String) : SessionMap :=
  ⟨deleteEntries id sm.entries, sm.nodup.sublist ((List.filter_sublist sm.entries).map Prod.fst)⟩

/-- The statement `sm[id] = s`: the entry under `id`, if any, is replaced. -/
def insert (sm : SessionMap) (id : String) (s : TypePtr) : SessionMap :=
  ⟨(id, s) :: deleteEntries id sm.entries,
    List.nodup_cons.2 ⟨fun h => by
        obtain ⟨e, he, rfl⟩ := List.mem_map.1 h
        simpa [deleteEntries] using (List.mem_filter.1 he).2,
      sm.nodup.sublist ((List.filter_sublist sm.entries).map Prod.fst)⟩⟩

/-- The expression `len(sm)`. -/
def len (sm : SessionMap) : Nat := sm.entries.length

end SessionMap

/-- The struct `Manager`: the `sessions` map, and the calls made so far on the
statistics sink `stat` and on the sessions (`Stop`). -/
structure Manager where
  sessions : SessionMap
  events : List Event

/-- The outcome of `io.ReadFull(rand.Reader, b)` for the 15-byte buffer `b`:
either the buffer was filled, or the read failed. -/
inductive ReadFull where
  | ok (b : List (Fin 256)) (h : b.length = 15)
  | fail (err : Error)

/-- The alphabet of `base64.URLEncoding`. -/
def encodeURL : List Char :=
  "ABCDEFGHIJKLMNOPQRSTUVWXYZabcdefghijklmnopqrstuvwxyz0123456789-_".toList

/-- The character `enc.encode[i]` of `base64.URLEncoding`. -/
def encodeChar (i : Nat) : Char := encodeURL.getD (i % 64) 'A'

/-- The padding character of `base64.URLEncoding`. -/
def padChar : Char := '='

/-- The loop of `base64.URLEncoding.Encode`: three bytes give four characters,
and a tail of one or two bytes is completed with padding. -/
def encode : List (Fin 256) → List Char
  | b0 :: b1 :: b2 :: rest =>
    let val := b0.val <<< 16 ||| b1.val <<< 8 ||| b2.val
    encodeChar (val >>> 18 &&& 0x3F) :: encodeChar (val >>> 12 &&& 0x3F) ::
      encodeChar (val >>> 6 &&& 0x3F) :: encodeChar (val &&& 0x3F) :: encode rest
  | [b0, b1] =>
    let val := b0.val <<< 16 ||| b1.val <<< 8
    [encodeChar (val >>> 18 &&& 0x3F), encodeChar (val >>> 12 &&& 0x3F),
      encodeChar (val >>> 6 &&& 0x3F), padChar]
  | [b0] =>
    let val := b0.val <<< 16
    [encodeChar (val >>> 18 &&& 0x3F), encodeChar (val >>> 12 &&& 0x3F), padChar, padChar]
  | [] => []

/-- The call `base64.URLEncoding.EncodeToString(b)`. -/
def EncodeToString (b : List (Fin 256)) : String := String.mk (encode b)

/-- The function `NewManager`. -/
def NewManager : Manager × Option Error :=
  ({ sessions := SessionMap.empty, events := [] }, none)

/-- The method `genSessionID`, given the outcome of the random read. -/
def genSessionID : ReadFull → String
  | .fail _ => ""
  | .ok b _ => EncodeToString b

/-- The identifier `New` works with after its first statement. -/
def newID (id : String) (rnd : ReadFull) : String :=
  if id = "" then genSessionID rnd else id

/-- The method `New`.  `rnd` is the outcome of the random read (used only when
`id` is empty) and `newSession` the session factory. -/
def Manager.New (m : Manager) (id : String) (config : Config) (rnd : ReadFull)
    (newSession : String → Config → TypePtr × Option Error) :
    (TypePtr × Option Error) × Manager :=
  let id := if id = "" then genSessionID rnd else id
  match newSession id config with
  | (_, some err) => ((none, some err), m)
  | (s, none) =>
    ((s, none), { sessions := m.sessions.insert id s, events := m.events ++ [Event.Created] })

/-- The method `Get`. -/
def Manager.Get (m : Manager) (id : String) : TypePtr × Option Error :=
  match m.sessions.lookup id with
  | some s => (s, none)
  | none => (none, some Error.ErrNoSuchSession)

/-- The method `Del`. -/
def Manager.Del (m : Manager) (id : String) : Manager :=
  { sessions := m.sessions.delete id, events := m.events ++ [Event.Removed] }

/-- The method `Save`. -/
def Manager.Save (m : Manager) (_id : String) : Option Error × Manager := (none, m)

/-- The method `Count`. -/
def Manager.Count (m : Manager) : Nat := m.sessions.len

/-- The loop `for id, s := range m.sessions { s.Stop(); delete(m.sessions, id) }`
over the entries still to be visited. -/
def shutdownLoop : List (String × TypePtr) → Manager → Manager
  | [], m => m
  | (id, s) :: rest, m =>
    shutdownLoop rest { sessions := m.sessions.delete id, events := m.events ++ [Event.Stop s] }

/-- The method `Shutdown`. -/
def Manager.Shutdown (m : Manager) : Option Error × Manager :=
  let m1 := shutdownLoop m.sessions.entries m
  (none, { sessions := SessionMap.empty, events := m1.events })

/-- The number of `stat.Created()` calls made so far. -/
def Manager.createdCount (m : Manager) : Nat := m.events.count Event.Created

/-- The number of `stat.Removed()` calls made so far. -/
def Manager.removedCount (m : Manager) : Nat := m.events.count Event.Removed

/-- The number of `Stop()` calls made so far on the session `s`. -/
def Manager.stopCount (m : Manager) (s : TypePtr) : Nat := m.events.count (Event.Stop s)


/-- One call of `New`: its two arguments, the outcome of the random read made
during the call and the session factory in force during the call. -/
structure NewCall where
  id : String
  config : Config
  rnd : ReadFull
  newSession : String → Config → TypePtr × Option Error

/-- The identifier under which the call registers its session. -/
def NewCall.key (c : NewCall) : String := newID c.id c.rnd

/-- The calls of `New` in `cs`, made one after the other. -/
def newAll (m : Manager) (cs : List NewCall) : Manager :=
  cs.foldl (fun m c => (m.New c.id c.config c.rnd c.newSession).2) m

/-- The calls `Del(id)` for the `ids`, made one after the other. -/
def delAll (m : Manager) (ids : List String) : Manager :=
  ids.foldl Manager.Del m

/-- A random read that fails. -/
def failedRead : ReadFull := ReadFull.fail (Error.other "unexpected EOF")

/-- A session factory that succeeds with the session at address `a`. -/
def factoryOk (a : Nat) : String → Config → TypePtr × Option Error :=
  fun _ _ => (some a, none)

/-- A session factory that fails with the error `msg`. -/
def factoryErr (msg : String) : String → Config → TypePtr × Option Error :=
  fun _ _ => (none, some (Error.other msg))

/-- A call of `New` with a factory that succeeds with the session at address `a`. -/
def callOk (id : String) (a : Nat) : NewCall :=
  { id := id, config := ⟨0⟩, rnd := failedRead, newSession := factoryOk a }

/-- A character of the URL-safe alphabet: `A`-`Z`, `a`-`z`, `0`-`9`, `-` or `_`. -/
def isURLSafe (c : Char) : Prop :=
  ('A' ≤ c ∧ c ≤ 'Z') ∨ ('a' ≤ c ∧ c ≤ 'z') ∨ ('0' ≤ c ∧ c ≤ '9') ∨ c = '-' ∨ c = '_'

instance (c : Char) : Decidable (isURLSafe c) := by
  unfold isURLSafe
  infer_instance

/-- A random read that fills the buffer with the bytes 0, 17, 34, ..., 238. -/
def someRead : ReadFull :=
  ReadFull.ok [0, 17, 34, 51, 68, 85, 102, 119, 136, 153, 170, 187, 204, 221, 238] rfl

/-- A random read that fills the buffer with fifteen bytes 255. -/
def otherRead : ReadFull :=
  ReadFull.ok [255, 255, 255, 255, 255, 255, 255, 255, 255, 255, 255, 255, 255, 255, 255] rfl

/-- One call on the manager.  A call of `New` carries, besides its arguments,
the outcome of the random read made during the call and the session factory in
force during the call. -/
inductive Op where
  | New (id : String) (config : Config) (rnd : ReadFull)
      (newSession : String → Config → TypePtr × Option Error)
  | Get (id : String)
  | Del (id : String)
  | Save (id : String)
  | Count
  | Shutdown

/-- The state of the manager after one call.  `Get` and `Count` only read the
fields of the manager. -/
def Manager.step (m : Manager) : Op → Manager
  | Op.New id config rnd newSession => (m.New id config rnd newSession).2
  | Op.Get _ => m
  | Op.Del id => m.Del id
  | Op.Save id => (m.Save id).2
  | Op.Count => m
  | Op.Shutdown => m.Shutdown.2

/-- The state of the manager after the calls `ops`, made one after the other. -/
def Manager.run (m : Manager) (ops : List Op) : Manager := ops.foldl Manager.step m

/-- The session factory of the call returns a non-nil session whenever it
returns a nil error. -/
def Op.factoryNonNil : Op → Prop
  | Op.New _ _ _ newSession =>
    ∀ (id : String) (config : Config),
      (newSession id config).2 = none → (newSession id config).1 ≠ none
  | _ => True

/-- A sequence of calls that uses every operation. -/
def someOps : List Op :=
  [Op.New "a" ⟨0⟩ failedRead (factoryOk 1), Op.Get "a", Op.New "" ⟨0⟩ someRead (factoryOk 2),
    Op.New "c" ⟨0⟩ failedRead (factoryErr "boom"), Op.Save "a", Op.Count, Op.Del "a",
    Op.Shutdown, Op.New "b" ⟨0⟩ failedRead (factoryOk 3)]

/-- The character at position `i` of the URL-safe alphabet of RFC 4648,
table 2. -/
def alphabetChar (i : Nat) : Char := encodeURL.getD i '='

/-- The base 64 encoding with the URL-safe alphabet as RFC 4648 describes it,
in arithmetic on the bytes.  A group of three bytes `x y z` is the 24-bit number
`x * 65536 + y * 256 + z`, read as four 6-bit numbers; a final group of two
bytes is 16 bits followed by two zero bits, read as three 6-bit numbers and
followed by one `=`; a final group of one byte is 8 bits followed by four zero
bits, read as two 6-bit numbers and followed by `==`.  Each 6-bit number is
replaced by the character of the alphabet at that position. -/
def rfc4648 : List (Fin 256) → List Char
  | x :: y :: z :: rest =>
    alphabetChar ((x.val * 65536 + y.val * 256 + z.val) / 262144 % 64) ::
      alphabetChar ((x.val * 65536 + y.val * 256 + z.val) / 4096 % 64) ::
      alphabetChar ((x.val * 65536 + y.val * 256 + z.val) / 64 % 64) ::
      alphabetChar ((x.val * 65536 + y.val * 256 + z.val) % 64) :: rfc4648 rest
  | [x, y] =>
    [alphabetChar ((x.val * 256 + y.val) * 4 / 4096 % 64),
      alphabetChar ((x.val * 256 + y.val) * 4 / 64 % 64),
      alphabetChar ((x.val * 256 + y.val) * 4 % 64), '=']
  | [x] => [alphabetChar (x.val * 16 / 64 % 64), alphabetChar (x.val * 16 % 64), '=', '=']
  | [] => []

/-- A call `New("", cfg)` with the random read `rnd` and a factory that succeeds
with the session at address `a`. -/
def callEmpty (rnd : ReadFull) (a : Nat) : NewCall :=
  { id := "", config := ⟨0⟩, rnd := rnd, newSession := factoryOk a }

/-- The session factory hands out new sessions during the calls `ops` made from
the state `m`: the session returned to a successful `New` is not a value of the
mapping at that moment. -/
def Manager.freshSessions : Manager → List Op → Prop
  | _, [] => True
  | m, op :: ops =>
    (match op with
      | Op.New id config rnd newSession =>
        ∀ s : TypePtr, newSession (newID id rnd) config = (s, none) → s ∉ m.sessions.values
      | _ => True) ∧
    Manager.freshSessions (m.step op) ops

/-! ## The map operations -/

namespace SessionMap

theorem lookup_eq_none_iff (sm : SessionMap) (id : String) :
    sm.lookup id = none ↔ id ∉ sm.keys := by
  simp only [lookup, keys, Option.map_eq_none', List.find?_eq_none, List.mem_map, not_exists,
    not_and]
  constructor
  · intro h e he heq
    exact h e he (by simpa using heq)
  · intro h e he heq
    exact h e he (by simpa using heq)

theorem keys_nodup_entry_unique {l : List (String × TypePtr)} (h : (l.map Prod.fst).Nodup)
    {id : String} {s t : TypePtr} (hs : (id, s) ∈ l) (ht : (id, t) ∈ l) : s = t := by
  induction l with
  | nil => cases hs
  | cons e l ih =>
    rw [List.map_cons, List.nodup_cons] at h
    rcases List.mem_cons.1 hs with rfl | hs1
    · rcases List.mem_cons.1 ht with hte | ht1
      · exact (Prod.mk.inj hte).2.symm
      · exact absurd (List.mem_map.2 ⟨(id, t), ht1, rfl⟩) h.1
    · rcases List.mem_cons.1 ht with rfl | ht1
      · exact absurd (List.mem_map.2 ⟨(id, s), hs1, rfl⟩) h.1
      · exact ih h.2 hs1 ht1

theorem lookup_eq_some_iff (sm : SessionMap) (id : String) (s : TypePtr) :
    sm.lookup id = some s ↔ (id, s) ∈ sm.entries := by
  constructor
  · intro h
    simp only [lookup, Option.map_eq_some'] at h
    obtain ⟨e, he, rfl⟩ := h
    have hmem := List.mem_of_find?_eq_some he
    have hp := List.find?_some he
    simp only [decide_eq_true_eq] at hp
    subst hp
    exact hmem
  · intro h
    cases hl : sm.lookup id with
    | none =>
      exact absurd (List.mem_map.2 ⟨(id, s), h, rfl⟩) ((lookup_eq_none_iff sm id).1 hl)
    | some t =>
      simp only [lookup, Option.map_eq_some'] at hl
      obtain ⟨e, he, rfl⟩ := hl
      have hmem := List.mem_of_find?_eq_some he
      have hp := List.find?_some he
      simp only [decide_eq_true_eq] at hp
      obtain ⟨k, v⟩ := e
      simp only at hp
      subst hp
      exact congrArg some (keys_nodup_entry_unique sm.nodup hmem h)

theorem lookup_empty (id : String) : empty.lookup id = none := rfl

theorem lookup_insert_self (sm : SessionMap) (id : String) (s : TypePtr) :
    (sm.insert id s).lookup id = some s := by
  simp [lookup, insert]

theorem find?_deleteEntries_ne (l : List (String × TypePtr)) {id id1 : String} (h : id1 ≠ id) :
    (deleteEntries id l).find? (fun e => decide (e.1 = id1)) =
      l.find? (fun e => decide (e.1 = id1)) := by
  induction l with
  | nil => rfl
  | cons e l ih =>
    unfold deleteEntries at ih ⊢
    by_cases he : e.1 = id
    · have h1 : ¬ e.1 = id1 := fun h2 => h (h2.symm.trans he)
      rw [List.filter_cons_of_neg (by simpa using he), List.find?_cons_of_neg _ (by simpa using h1)]
      exact ih
    · rw [List.filter_cons_of_pos (by simpa using he)]
      by_cases h1 : e.1 = id1
      · rw [List.find?_cons_of_pos _ (by simpa using h1),
          List.find?_cons_of_pos _ (by simpa using h1)]
      · rw [List.find?_cons_of_neg _ (by simpa using h1),
          List.find?_cons_of_neg _ (by simpa using h1)]
        exact ih

theorem lookup_insert_ne (sm : SessionMap) {id id1 : String} (s : TypePtr) (h : id1 ≠ id) :
    (sm.insert id s).lookup id1 = sm.lookup id1 := by
  have h1 : ¬ id = id1 := fun h2 => h h2.symm
  simp [lookup, insert, List.find?_cons, h1, find?_deleteEntries_ne sm.entries h]

theorem lookup_delete_self (sm : SessionMap) (id : String) : (sm.delete id).lookup id = none := by
  rw [lookup_eq_none_iff]
  intro h
  obtain ⟨e, he, rfl⟩ := List.mem_map.1 h
  simpa [delete, deleteEntries] using (List.mem_filter.1 he).2

theorem lookup_delete_ne (sm : SessionMap) {id id1 : String} (h : id1 ≠ id) :
    (sm.delete id).lookup id1 = sm.lookup id1 := by
  simp [lookup, delete, find?_deleteEntries_ne sm.entries h]

theorem deleteEntries_of_not_mem (l : List (String × TypePtr)) {id : String}
    (h : id ∉ l.map Prod.fst) : deleteEntries id l = l := by
  rw [deleteEntries, List.filter_eq_self]
  intro e he
  have : e.1 ≠ id := fun heq => h (List.mem_map.2 ⟨e, he, heq⟩)
  simpa using this

theorem eq_of_entries_eq {a b : SessionMap} (h : a.entries = b.entries) : a = b := by
  cases a
  cases b
  cases h
  rfl

theorem delete_delete (sm : SessionMap) (id : String) :
    (sm.delete id).delete id = sm.delete id := by
  apply eq_of_entries_eq
  simp [delete, deleteEntries, List.filter_filter]

theorem delete_of_not_mem (sm : SessionMap) {id : String} (h : id ∉ sm.keys) :
    sm.delete id = sm :=
  eq_of_entries_eq (deleteEntries_of_not_mem sm.entries h)

theorem mem_keys_iff (sm : SessionMap) (id : String) :
    id ∈ sm.keys ↔ ∃ s, (id, s) ∈ sm.entries := by
  constructor
  · intro h
    obtain ⟨e, he, rfl⟩ := List.mem_map.1 h
    exact ⟨e.2, he⟩
  · rintro ⟨s, hs⟩
    exact List.mem_map.2 ⟨(id, s), hs, rfl⟩

end SessionMap

/-! ## The operations of the manager -/

theorem Get_of_lookup_some {m : Manager} {id : String} {s : TypePtr}
    (h : m.sessions.lookup id = some s) : m.Get id = (s, none) := by
  simp [Manager.Get, h]

theorem Get_of_lookup_none {m : Manager} {id : String}
    (h : m.sessions.lookup id = none) : m.Get id = (none, some Error.ErrNoSuchSession) := by
  simp [Manager.Get, h]

theorem Get_fails_iff (m : Manager) (id : String) :
    m.Get id = (none, some Error.ErrNoSuchSession) ↔ id ∉ m.sessions.keys := by
  rw [← SessionMap.lookup_eq_none_iff]
  cases h : m.sessions.lookup id with
  | none => simp [Manager.Get, h]
  | some s => simp [Manager.Get, h]

theorem New_of_ok (m : Manager) (id : String) (config : Config) (rnd : ReadFull)
    (newSession : String → Config → TypePtr × Option Error) {s : TypePtr}
    (h : newSession (newID id rnd) config = (s, none)) :
    m.New id config rnd newSession =
      ((s, none), { sessions := m.sessions.insert (newID id rnd) s,
                    events := m.events ++ [Event.Created] }) := by
  unfold newID at h
  simp only [Manager.New, newID, h]

theorem New_of_err (m : Manager) (id : String) (config : Config) (rnd : ReadFull)
    (newSession : String → Config → TypePtr × Option Error) {e : Error}
    (h : (newSession (newID id rnd) config).2 = some e) :
    m.New id config rnd newSession = ((none, some e), m) := by
  unfold newID at h
  have hr : newSession (if id = "" then genSessionID rnd else id) config =
      ((newSession (if id = "" then genSessionID rnd else id) config).1, some e) :=
    Prod.ext rfl h
  simp only [Manager.New]
  rw [hr]

theorem newID_of_ne {id : String} (h : id ≠ "") (rnd : ReadFull) : newID id rnd = id := by
  simp [newID, h]

theorem keys_insert (sm : SessionMap) (id : String) (s : TypePtr) :
    (sm.insert id s).keys.toFinset = Insert.insert id sm.keys.toFinset := by
  ext k
  simp only [SessionMap.keys, SessionMap.insert, SessionMap.deleteEntries, List.map_cons,
    List.toFinset_cons, Finset.mem_insert, List.mem_toFinset, List.mem_map, List.mem_filter,
    decide_eq_true_eq]
  constructor
  · rintro (h | ⟨e, ⟨he, -⟩, rfl⟩)
    · exact Or.inl h
    · exact Or.inr ⟨e, he, rfl⟩
  · rintro (h | ⟨e, he, rfl⟩)
    · exact Or.inl h
    · by_cases hk : e.1 = id
      · exact Or.inl hk
      · exact Or.inr ⟨e, ⟨he, hk⟩, rfl⟩

theorem keys_delete (sm : SessionMap) (id : String) :
    (sm.delete id).keys.toFinset = sm.keys.toFinset.erase id := by
  ext k
  simp only [SessionMap.keys, SessionMap.delete, SessionMap.deleteEntries, Finset.mem_erase,
    List.mem_toFinset, List.mem_map, List.mem_filter, decide_eq_true_eq]
  constructor
  · rintro ⟨e, ⟨he, hk⟩, rfl⟩
    exact ⟨hk, e, he, rfl⟩
  · rintro ⟨hk, e, he, rfl⟩
    exact ⟨e, ⟨he, hk⟩, rfl⟩

theorem Count_eq_card_keys (m : Manager) : m.Count = m.sessions.keys.toFinset.card := by
  have h : m.sessions.keys.toFinset.card = m.sessions.keys.length :=
    List.toFinset_card_of_nodup m.sessions.nodup
  rw [h]
  simp [Manager.Count, SessionMap.len, SessionMap.keys]

theorem newAll_cons (m : Manager) (c : NewCall) (cs : List NewCall) :
    newAll m (c :: cs) = newAll (m.New c.id c.config c.rnd c.newSession).2 cs := rfl

theorem delAll_cons (m : Manager) (d : String) (ds : List String) :
    delAll m (d :: ds) = delAll (m.Del d) ds := rfl

theorem keys_newAll (cs : List NewCall) :
    ∀ m : Manager, (∀ c ∈ cs, (c.newSession c.key c.config).2 = none) →
      (newAll m cs).sessions.keys.toFinset =
        m.sessions.keys.toFinset ∪ (cs.map NewCall.key).toFinset := by
  induction cs with
  | nil => intro m _; simp [newAll]
  | cons c cs ih =>
    intro m hok
    have hc : c.newSession (newID c.id c.rnd) c.config =
        ((c.newSession (newID c.id c.rnd) c.config).1, none) :=
      Prod.ext rfl (hok c (List.mem_cons_self _ _))
    rw [newAll_cons, ih _ (fun c1 h1 => hok c1 (List.mem_cons_of_mem _ h1)),
      New_of_ok m c.id c.config c.rnd c.newSession hc]
    simp only [keys_insert, List.map_cons, List.toFinset_cons, NewCall.key]
    ext k
    simp only [Finset.mem_union, Finset.mem_insert]
    tauto

theorem keys_delAll (ds : List String) :
    ∀ m : Manager, (delAll m ds).sessions.keys.toFinset = m.sessions.keys.toFinset \ ds.toFinset := by
  induction ds with
  | nil => intro m; simp [delAll]
  | cons d ds ih =>
    intro m
    rw [delAll_cons, ih]
    simp only [Manager.Del, keys_delete, List.toFinset_cons]
    ext k
    simp only [Finset.mem_sdiff, Finset.mem_erase, Finset.mem_insert]
    tauto

theorem events_shutdownLoop (l : List (String × TypePtr)) :
    ∀ m : Manager, (shutdownLoop l m).events = m.events ++ l.map (fun e => Event.Stop e.2) := by
  induction l with
  | nil => intro m; simp [shutdownLoop]
  | cons e l ih =>
    intro m
    obtain ⟨id, s⟩ := e
    simp [shutdownLoop, ih]

theorem sessions_shutdownLoop (l : List (String × TypePtr)) :
    ∀ m : Manager, (shutdownLoop l m).sessions.entries =
      m.sessions.entries.filter (fun e => decide (e.1 ∉ l.map Prod.fst)) := by
  induction l with
  | nil => intro m; simp [shutdownLoop]
  | cons e l ih =>
    intro m
    obtain ⟨id, s⟩ := e
    simp only [shutdownLoop, ih, SessionMap.delete, SessionMap.deleteEntries, List.filter_filter,
      List.map_cons, List.mem_cons, not_or]
    congr 1
    funext e
    simp only [Bool.decide_and, decide_not, Bool.and_comm]

theorem shutdownLoop_empties (m : Manager) :
    (shutdownLoop m.sessions.entries m).sessions.entries = [] := by
  rw [sessions_shutdownLoop, List.filter_eq_nil_iff]
  intro e he
  have hk : e.1 ∈ m.sessions.entries.map Prod.fst := List.mem_map.2 ⟨e, he, rfl⟩
  simpa using List.mem_map.1 hk

theorem Shutdown_events (m : Manager) :
    m.Shutdown.2.events = m.events ++ m.sessions.entries.map (fun e => Event.Stop e.2) := by
  simp [Manager.Shutdown, events_shutdownLoop]

theorem count_Stop_map (s : TypePtr) (l : List (String × TypePtr)) :
    (l.map (fun e => Event.Stop e.2)).count (Event.Stop s) = (l.map Prod.snd).count s := by
  induction l with
  | nil => rfl
  | cons e l ih =>
    by_cases h : e.2 = s
    · simp [List.count_cons, ih, h]
    · have h1 : ¬ Event.Stop e.2 = Event.Stop s := fun h2 => h (Event.Stop.inj h2)
      simp [List.count_cons, ih, h, h1]

theorem Shutdown_stopCount (m : Manager) (s : TypePtr) :
    m.Shutdown.2.stopCount s = m.stopCount s + m.sessions.values.count s := by
  simp [Manager.stopCount, Shutdown_events, List.count_append, count_Stop_map,
    SessionMap.values]

theorem encodeChar_mem (i : Nat) : encodeChar i ∈ encodeURL := by
  have hlen : encodeURL.length = 64 := by decide
  have hlt : i % 64 < encodeURL.length := by rw [hlen]; exact Nat.mod_lt _ (by decide)
  unfold encodeChar
  rw [List.getD_eq_getElem _ _ hlt]
  exact List.getElem_mem _

theorem isURLSafe_of_mem_encodeURL : ∀ c ∈ encodeURL, isURLSafe c := by decide

theorem not_special_of_mem_encodeURL :
    ∀ c ∈ encodeURL, c ≠ '=' ∧ c ≠ '+' ∧ c ≠ '/' := by decide

theorem encode_of_length_mul_three (n : Nat) :
    ∀ b : List (Fin 256), b.length = 3 * n →
      (encode b).length = 4 * n ∧ ∀ c ∈ encode b, c ∈ encodeURL := by
  induction n with
  | zero =>
    intro b hb
    have : b = [] := List.length_eq_zero.1 (by simpa using hb)
    subst this
    simp [encode]
  | succ n ih =>
    intro b hb
    match b, hb with
    | b0 :: b1 :: b2 :: rest, hb =>
      have hrest : rest.length = 3 * n := by
        simp only [List.length_cons] at hb
        omega
      obtain ⟨hlen, hmem⟩ := ih rest hrest
      refine ⟨?_, ?_⟩
      · simp only [encode, List.length_cons, hlen]
        omega
      · intro c hc
        simp only [encode, List.mem_cons] at hc
        rcases hc with rfl | rfl | rfl | rfl | hc
        · exact encodeChar_mem _
        · exact encodeChar_mem _
        · exact encodeChar_mem _
        · exact encodeChar_mem _
        · exact hmem c hc
    | [b0, b1], hb => simp only [List.length_cons, List.length_nil] at hb; omega
    | [b0], hb => simp only [List.length_cons, List.length_nil] at hb; omega
    | [], hb => simp only [List.length_nil] at hb; omega

/-- The encoder agrees with the test vector `foobar` of RFC 4648. -/
theorem EncodeToString_foobar :
    EncodeToString [102, 111, 111, 98, 97, 114] = "Zm9vYmFy" ∧
    EncodeToString [102, 111, 111, 98, 97] = "Zm9vYmE=" ∧
    EncodeToString [102, 111, 111, 98] = "Zm9vYg==" ∧
    EncodeToString [251, 255] = "-_8=" := by decide

theorem val_of_three_bytes (b0 b1 b2 : Fin 256) :
    b0.val <<< 16 ||| b1.val <<< 8 ||| b2.val = b0.val * 65536 + b1.val * 256 + b2.val := by
  have h0 := b0.isLt
  have h1 := b1.isLt
  have h2 := b2.isLt
  have e1 : b0.val <<< 16 ||| b1.val <<< 8 = 2 ^ 8 * (b0.val * 256 + b1.val) := by
    rw [Nat.shiftLeft_eq, Nat.shiftLeft_eq, Nat.mul_comm b0.val (2 ^ 16)]
    have h : b1.val * 2 ^ 8 < 2 ^ 16 := by omega
    rw [← Nat.mul_add_lt_is_or h b0.val]
    omega
  rw [e1, ← Nat.mul_add_lt_is_or (by omega : b2.val < 2 ^ 8)]
  omega

theorem shifted_sextet (v k : Nat) : v >>> k &&& 0x3F = v / 2 ^ k % 64 := by
  rw [Nat.shiftRight_eq_div_pow]
  exact Nat.and_pow_two_sub_one_eq_mod _ 6

theorem low_sextet (v : Nat) : v &&& 0x3F = v % 64 :=
  Nat.and_pow_two_sub_one_eq_mod v 6

theorem encodeURL_nodup : encodeURL.Nodup := by decide

theorem encodeChar_inj {i j : Nat} (h : encodeChar i = encodeChar j) : i % 64 = j % 64 := by
  have hlen : encodeURL.length = 64 := by decide
  have hi : i % 64 < encodeURL.length := by rw [hlen]; exact Nat.mod_lt _ (by decide)
  have hj : j % 64 < encodeURL.length := by rw [hlen]; exact Nat.mod_lt _ (by decide)
  unfold encodeChar at h
  rw [List.getD_eq_getElem _ _ hi, List.getD_eq_getElem _ _ hj] at h
  exact (List.Nodup.getElem_inj_iff encodeURL_nodup).1 h

theorem encode_group_inj (a0 a1 a2 b0 b1 b2 : Fin 256)
    (h18 : encodeChar ((a0.val <<< 16 ||| a1.val <<< 8 ||| a2.val) >>> 18 &&& 0x3F) =
      encodeChar ((b0.val <<< 16 ||| b1.val <<< 8 ||| b2.val) >>> 18 &&& 0x3F))
    (h12 : encodeChar ((a0.val <<< 16 ||| a1.val <<< 8 ||| a2.val) >>> 12 &&& 0x3F) =
      encodeChar ((b0.val <<< 16 ||| b1.val <<< 8 ||| b2.val) >>> 12 &&& 0x3F))
    (h6 : encodeChar ((a0.val <<< 16 ||| a1.val <<< 8 ||| a2.val) >>> 6 &&& 0x3F) =
      encodeChar ((b0.val <<< 16 ||| b1.val <<< 8 ||| b2.val) >>> 6 &&& 0x3F))
    (h0 : encodeChar ((a0.val <<< 16 ||| a1.val <<< 8 ||| a2.val) &&& 0x3F) =
      encodeChar ((b0.val <<< 16 ||| b1.val <<< 8 ||| b2.val) &&& 0x3F)) :
    a0 = b0 ∧ a1 = b1 ∧ a2 = b2 := by
  have e18 := encodeChar_inj h18
  have e12 := encodeChar_inj h12
  have e6 := encodeChar_inj h6
  have e0 := encodeChar_inj h0
  rw [shifted_sextet, shifted_sextet, val_of_three_bytes, val_of_three_bytes] at e18 e12 e6
  rw [low_sextet, low_sextet, val_of_three_bytes, val_of_three_bytes] at e0
  have ha0 := a0.isLt
  have ha1 := a1.isLt
  have ha2 := a2.isLt
  have hb0 := b0.isLt
  have hb1 := b1.isLt
  have hb2 := b2.isLt
  norm_num at e18 e12 e6 e0
  refine ⟨Fin.ext ?_, Fin.ext ?_, Fin.ext ?_⟩ <;> omega

theorem encode_injective (n : Nat) :
    ∀ a b : List (Fin 256), a.length = 3 * n → b.length = 3 * n → encode a = encode b → a = b := by
  induction n with
  | zero =>
    intro a b ha hb _
    have ea : a = [] := List.length_eq_zero.1 (by simpa using ha)
    have eb : b = [] := List.length_eq_zero.1 (by simpa using hb)
    rw [ea, eb]
  | succ n ih =>
    intro a b ha hb h
    match a, ha, b, hb, h with
    | a0 :: a1 :: a2 :: ra, ha, b0 :: b1 :: b2 :: rb, hb, h =>
      simp only [encode, List.cons.injEq] at h
      obtain ⟨h18, h12, h6, h0, hrest⟩ := h
      obtain ⟨e0, e1, e2⟩ := encode_group_inj a0 a1 a2 b0 b1 b2 h18 h12 h6 h0
      have hra : ra.length = 3 * n := by simp only [List.length_cons] at ha; omega
      have hrb : rb.length = 3 * n := by simp only [List.length_cons] at hb; omega
      rw [e0, e1, e2, ih ra rb hra hrb hrest]
    | [], ha, _, _, _ => simp only [List.length_nil] at ha; omega
    | [_], ha, _, _, _ => simp only [List.length_cons, List.length_nil] at ha; omega
    | [_, _], ha, _, _, _ => simp only [List.length_cons, List.length_nil] at ha; omega
    | _ :: _ :: _ :: _, _, [], hb, _ => simp only [List.length_nil] at hb; omega
    | _ :: _ :: _ :: _, _, [_], hb, _ => simp only [List.length_cons, List.length_nil] at hb; omega
    | _ :: _ :: _ :: _, _, [_, _], hb, _ =>
      simp only [List.length_cons, List.length_nil] at hb; omega

theorem genSessionID_ok_inj {b1 b2 : List (Fin 256)} (h1 : b1.length = 15) (h2 : b2.length = 15)
    (h : genSessionID (ReadFull.ok b1 h1) = genSessionID (ReadFull.ok b2 h2)) : b1 = b2 :=
  encode_injective 5 b1 b2 h1 h2 (congrArg String.data h)

theorem genSessionID_ok_ne_empty (b : List (Fin 256)) (h : b.length = 15) :
    genSessionID (ReadFull.ok b h) ≠ "" := by
  intro heq
  have hlen := (encode_of_length_mul_three 5 b h).1
  have hdata : encode b = [] := congrArg String.data heq
  rw [hdata] at hlen
  simp at hlen

theorem mem_keys_insert (sm : SessionMap) (id k : String) (s : TypePtr) :
    k ∈ (sm.insert id s).keys ↔ k = id ∨ k ∈ sm.keys := by
  have h := congrArg (fun t => k ∈ t) (keys_insert sm id s)
  simpa using h

theorem mem_keys_delete (sm : SessionMap) (id k : String) :
    k ∈ (sm.delete id).keys ↔ k ≠ id ∧ k ∈ sm.keys := by
  have h := congrArg (fun t => k ∈ t) (keys_delete sm id)
  simpa using h

theorem Get_insert_ne (m : Manager) {id id1 : String} (s : TypePtr) (ev : List Event)
    (h : id1 ≠ id) :
    Manager.Get { sessions := m.sessions.insert id s, events := ev } id1 = m.Get id1 := by
  simp only [Manager.Get, SessionMap.lookup_insert_ne m.sessions s h]

theorem Get_Del_ne (m : Manager) {id id1 : String} (h : id1 ≠ id) :
    (m.Del id).Get id1 = m.Get id1 := by
  simp only [Manager.Get, Manager.Del, SessionMap.lookup_delete_ne m.sessions h]

theorem New_cases (m : Manager) (id : String) (config : Config) (rnd : ReadFull)
    (newSession : String → Config → TypePtr × Option Error) :
    (∃ e, (newSession (newID id rnd) config).2 = some e ∧
        m.New id config rnd newSession = ((none, some e), m)) ∨
    (∃ s, newSession (newID id rnd) config = (s, none) ∧
        m.New id config rnd newSession =
          ((s, none), { sessions := m.sessions.insert (newID id rnd) s,
                        events := m.events ++ [Event.Created] })) := by
  cases h : (newSession (newID id rnd) config).2 with
  | some e => exact Or.inl ⟨e, rfl, New_of_err m id config rnd newSession h⟩
  | none =>
    have h1 : newSession (newID id rnd) config = ((newSession (newID id rnd) config).1, none) :=
      Prod.ext rfl h
    exact Or.inr ⟨_, h1, New_of_ok m id config rnd newSession h1⟩

theorem newID_empty (rnd : ReadFull) : newID "" rnd = genSessionID rnd := by
  simp [newID]

theorem New_congr_factory (m : Manager) (id : String) (config : Config) (rnd : ReadFull)
    (f g : String → Config → TypePtr × Option Error)
    (h : g (newID id rnd) config = f (newID id rnd) config) :
    m.New id config rnd g = m.New id config rnd f := by
  unfold newID at h
  simp only [Manager.New, h]

theorem count_Created_map_Stop (l : List (String × TypePtr)) :
    (l.map (fun e => Event.Stop e.2)).count Event.Created = 0 := by
  rw [List.count_eq_zero]
  intro h
  obtain ⟨e, _, he⟩ := List.mem_map.1 h
  cases he

theorem count_Removed_map_Stop (l : List (String × TypePtr)) :
    (l.map (fun e => Event.Stop e.2)).count Event.Removed = 0 := by
  rw [List.count_eq_zero]
  intro h
  obtain ⟨e, _, he⟩ := List.mem_map.1 h
  cases he

theorem Shutdown_createdCount (m : Manager) : m.Shutdown.2.createdCount = m.createdCount := by
  simp [Manager.createdCount, Shutdown_events, List.count_append, count_Created_map_Stop]

theorem Shutdown_removedCount (m : Manager) : m.Shutdown.2.removedCount = m.removedCount := by
  simp [Manager.removedCount, Shutdown_events, List.count_append, count_Removed_map_Stop]

theorem step_preserves_non_nil (m : Manager) (op : Op) (hop : op.factoryNonNil)
    (hinv : ∀ e ∈ m.sessions.entries, e.2 ≠ none) :
    ∀ e ∈ (m.step op).sessions.entries, e.2 ≠ none := by
  cases op with
  | New id config rnd f =>
    rcases New_cases m id config rnd f with ⟨err, _, h⟩ | ⟨s, hs, h⟩
    · simp only [Manager.step, h]
      exact hinv
    · simp only [Manager.step, h]
      intro e he
      have hs2 : (f (newID id rnd) config).2 = none := by rw [hs]
      have hs1 : (f (newID id rnd) config).1 = s := by rw [hs]
      have hnn : s ≠ none := hs1 ▸ hop (newID id rnd) config hs2
      simp only [SessionMap.insert, List.mem_cons] at he
      rcases he with rfl | he
      · exact hnn
      · exact hinv e (List.mem_filter.1 he).1
  | Get id => exact hinv
  | Del id =>
    intro e he
    exact hinv e (List.mem_filter.1 he).1
  | Save id => exact hinv
  | Count => exact hinv
  | Shutdown =>
    intro e he
    cases he

theorem run_preserves_non_nil (ops : List Op) :
    ∀ m : Manager, (∀ op ∈ ops, op.factoryNonNil) → (∀ e ∈ m.sessions.entries, e.2 ≠ none) →
      ∀ e ∈ (m.run ops).sessions.entries, e.2 ≠ none := by
  induction ops with
  | nil => intro m _ hinv; exact hinv
  | cons op ops ih =>
    intro m hops hinv
    exact ih (m.step op) (fun o ho => hops o (List.mem_cons_of_mem _ ho))
      (step_preserves_non_nil m op (hops op (List.mem_cons_self _ _)) hinv)

theorem encodeChar_eq_alphabetChar (i j : Nat) (h : i % 64 = j) (hj : j < 64) :
    encodeChar i = alphabetChar j := by
  have hlen : encodeURL.length = 64 := by decide
  have hlt : j < encodeURL.length := by rw [hlen]; exact hj
  unfold encodeChar alphabetChar
  rw [h, List.getD_eq_getElem _ _ hlt, List.getD_eq_getElem _ _ hlt]

theorem encodeChar_eq_of_mod (i j : Nat) (h : i % 64 = j % 64) :
    encodeChar i = alphabetChar (j % 64) :=
  encodeChar_eq_alphabetChar i (j % 64) h (Nat.mod_lt _ (by decide))

theorem val_of_two_bytes (b0 b1 : Fin 256) :
    b0.val <<< 16 ||| b1.val <<< 8 = b0.val * 65536 + b1.val * 256 := by
  have h1 := b1.isLt
  rw [Nat.shiftLeft_eq, Nat.shiftLeft_eq, Nat.mul_comm b0.val (2 ^ 16)]
  have h : b1.val * 2 ^ 8 < 2 ^ 16 := by omega
  rw [← Nat.mul_add_lt_is_or h b0.val]
  omega

theorem encode_eq_rfc4648 : ∀ b : List (Fin 256), encode b = rfc4648 b
  | x :: y :: z :: rest => by
    have ih := encode_eq_rfc4648 rest
    have c0 : encodeChar ((x.val <<< 16 ||| y.val <<< 8 ||| z.val) >>> 18 &&& 0x3F) =
        alphabetChar ((x.val * 65536 + y.val * 256 + z.val) / 262144 % 64) := by
      rw [shifted_sextet, val_of_three_bytes]
      exact encodeChar_eq_of_mod _ _ (by norm_num)
    have c1 : encodeChar ((x.val <<< 16 ||| y.val <<< 8 ||| z.val) >>> 12 &&& 0x3F) =
        alphabetChar ((x.val * 65536 + y.val * 256 + z.val) / 4096 % 64) := by
      rw [shifted_sextet, val_of_three_bytes]
      exact encodeChar_eq_of_mod _ _ (by norm_num)
    have c2 : encodeChar ((x.val <<< 16 ||| y.val <<< 8 ||| z.val) >>> 6 &&& 0x3F) =
        alphabetChar ((x.val * 65536 + y.val * 256 + z.val) / 64 % 64) := by
      rw [shifted_sextet, val_of_three_bytes]
      exact encodeChar_eq_of_mod _ _ (by norm_num)
    have c3 : encodeChar ((x.val <<< 16 ||| y.val <<< 8 ||| z.val) &&& 0x3F) =
        alphabetChar ((x.val * 65536 + y.val * 256 + z.val) % 64) := by
      rw [low_sextet, val_of_three_bytes]
      exact encodeChar_eq_of_mod _ _ (by norm_num)
    simp only [encode, rfc4648, c0, c1, c2, c3, ih]
  | [x, y] => by
    have hx := x.isLt
    have hy := y.isLt
    have c0 : encodeChar ((x.val <<< 16 ||| y.val <<< 8) >>> 18 &&& 0x3F) =
        alphabetChar ((x.val * 256 + y.val) * 4 / 4096 % 64) := by
      rw [shifted_sextet, val_of_two_bytes]
      exact encodeChar_eq_of_mod _ _ (by norm_num; omega)
    have c1 : encodeChar ((x.val <<< 16 ||| y.val <<< 8) >>> 12 &&& 0x3F) =
        alphabetChar ((x.val * 256 + y.val) * 4 / 64 % 64) := by
      rw [shifted_sextet, val_of_two_bytes]
      exact encodeChar_eq_of_mod _ _ (by norm_num; omega)
    have c2 : encodeChar ((x.val <<< 16 ||| y.val <<< 8) >>> 6 &&& 0x3F) =
        alphabetChar ((x.val * 256 + y.val) * 4 % 64) := by
      rw [shifted_sextet, val_of_two_bytes]
      exact encodeChar_eq_of_mod _ _ (by norm_num; omega)
    simp only [encode, rfc4648, c0, c1, c2, padChar]
  | [x] => by
    have hx := x.isLt
    have c0 : encodeChar ((x.val <<< 16) >>> 18 &&& 0x3F) =
        alphabetChar (x.val * 16 / 64 % 64) := by
      rw [shifted_sextet, Nat.shiftLeft_eq]
      exact encodeChar_eq_of_mod _ _ (by norm_num; omega)
    have c1 : encodeChar ((x.val <<< 16) >>> 12 &&& 0x3F) =
        alphabetChar (x.val * 16 % 64) := by
      rw [shifted_sextet, Nat.shiftLeft_eq]
      exact encodeChar_eq_of_mod _ _ (by norm_num; omega)
    simp only [encode, rfc4648, c0, c1, padChar]
  | [] => rfl

theorem values_deleteEntries_sublist (id : String) (l : List (String × TypePtr)) :
    ((SessionMap.deleteEntries id l).map Prod.snd).Sublist (l.map Prod.snd) :=
  (List.filter_sublist l).map Prod.snd

theorem step_preserves_values_nodup (m : Manager) (op : Op)
    (hfresh : m.freshSessions [op]) (hnodup : m.sessions.values.Nodup) :
    (m.step op).sessions.values.Nodup := by
  cases op with
  | New id config rnd f =>
    rcases New_cases m id config rnd f with ⟨err, _, h⟩ | ⟨s, hs, h⟩
    · simp only [Manager.step, h]
      exact hnodup
    · simp only [Manager.step, h]
      have hs1 : s ∉ m.sessions.values := hfresh.1 s hs
      show ((newID id rnd, s) :: SessionMap.deleteEntries (newID id rnd) m.sessions.entries
        |>.map Prod.snd).Nodup
      rw [List.map_cons, List.nodup_cons]
      exact ⟨fun hmem => hs1 ((values_deleteEntries_sublist _ _).subset hmem),
        hnodup.sublist (values_deleteEntries_sublist _ _)⟩
  | Get id => exact hnodup
  | Del id => exact hnodup.sublist (values_deleteEntries_sublist _ _)
  | Save id => exact hnodup
  | Count => exact hnodup
  | Shutdown => exact List.nodup_nil

/-- In every state reached with a factory that hands out new sessions, no
session is stored under two keys. -/
theorem run_preserves_values_nodup (ops : List Op) :
    ∀ m : Manager, m.freshSessions ops → m.sessions.values.Nodup →
      (m.run ops).sessions.values.Nodup := by
  induction ops with
  | nil => intro m _ h; exact h
  | cons op ops ih =>
    intro m hfresh hnodup
    exact ih (m.step op) hfresh.2
      (step_preserves_values_nodup m op ⟨hfresh.1, trivial⟩ hnodup)

theorem count_eq_one_of_mem_of_nodup (l : List TypePtr) (s : TypePtr) (hd : l.Nodup)
    (h : s ∈ l) : l.count s = 1 := by
  induction l with
  | nil => cases h
  | cons a l ih =>
    rw [List.nodup_cons] at hd
    rcases List.mem_cons.1 h with rfl | h1
    · simp [List.count_cons, List.count_eq_zero_of_not_mem hd.1]
    · have hne : a ≠ s := fun e => hd.1 (e ▸ h1)
      simp [List.count_cons, ih hd.2 h1, hne]

/-! ## The claims -/

/-- C1: for every state of the manager, every non-empty `id` and every `config`
on which the session factory succeeds with the session `s`, `New(id, config)`
returns `(s, nil)` and a `Get(id)` made right afterwards returns `(s, nil)`. -/
theorem New_then_Get_same_session (m : Manager) (id : String) (config : Config) (rnd : ReadFull)
    (newSession : String → Config → TypePtr × Option Error) (s : TypePtr)
    (hid : id ≠ "") (hok : newSession id config = (s, none)) :
    (m.New id config rnd newSession).1 = (s, none) ∧
      (m.New id config rnd newSession).2.Get id = (s, none) := by
  have hok1 : newSession (newID id rnd) config = (s, none) := by rw [newID_of_ne hid]; exact hok
  rw [New_of_ok m id config rnd newSession hok1, newID_of_ne hid]
  exact ⟨rfl, Get_of_lookup_some (SessionMap.lookup_insert_self _ _ _)⟩

/-- Witness of C1: on the fresh manager, `New("u1", cfg)` with a factory that
returns the session at address 7 returns that session, and so does the
`Get("u1")` that follows. -/
theorem New_then_Get_same_session_witness :
    ("u1" ≠ "" ∧ factoryOk 7 "u1" ⟨0⟩ = (some 7, none)) ∧
      (NewManager.1.New "u1" ⟨0⟩ failedRead (factoryOk 7)).1 = (some 7, none) ∧
      (NewManager.1.New "u1" ⟨0⟩ failedRead (factoryOk 7)).2.Get "u1" = (some 7, none) :=
  ⟨⟨by decide, rfl⟩,
    New_then_Get_same_session NewManager.1 "u1" ⟨0⟩ failedRead (factoryOk 7) (some 7)
      (by decide) rfl⟩

/-- C2: `Get(id)` returns `(nil, ErrNoSuchSession)` exactly when `id` is not a
key of the mapping, and otherwise returns the session stored under `id` with a
nil error; it fails with `ErrNoSuchSession` on a freshly constructed manager
and right after `Del(id)`; and in the sequence `New("u1", cfg)`, `Get("u1")`,
`Del("u1")`, `Get("u1")` with a succeeding factory the first `Get` returns the
new session and the second fails with `ErrNoSuchSession`. -/
theorem Get_ErrNoSuchSession_iff_absent (m : Manager) (id : String) :
    (m.Get id = (none, some Error.ErrNoSuchSession) ↔ id ∉ m.sessions.keys) ∧
    (id ∈ m.sessions.keys → ∃ s, (id, s) ∈ m.sessions.entries ∧ m.Get id = (s, none)) ∧
    NewManager.1.Get id = (none, some Error.ErrNoSuchSession) ∧
    (m.Del id).Get id = (none, some Error.ErrNoSuchSession) ∧
    (∀ (cfg : Config) (rnd : ReadFull) (newSession : String → Config → TypePtr × Option Error)
        (s : TypePtr), newSession "u1" cfg = (s, none) →
      (m.New "u1" cfg rnd newSession).1 = (s, none) ∧
      (m.New "u1" cfg rnd newSession).2.Get "u1" = (s, none) ∧
      ((m.New "u1" cfg rnd newSession).2.Del "u1").Get "u1" =
        (none, some Error.ErrNoSuchSession)) := by
  refine ⟨Get_fails_iff m id, ?_, ?_, ?_, ?_⟩
  · intro h
    obtain ⟨s, hs⟩ := (SessionMap.mem_keys_iff _ _).1 h
    exact ⟨s, hs, Get_of_lookup_some ((SessionMap.lookup_eq_some_iff _ _ _).2 hs)⟩
  · exact Get_of_lookup_none (SessionMap.lookup_empty id)
  · exact Get_of_lookup_none (SessionMap.lookup_delete_self _ _)
  · intro cfg rnd newSession s hok
    have hid : ("u1" : String) ≠ "" := by decide
    have hok1 : newSession (newID "u1" rnd) cfg = (s, none) := by
      rw [newID_of_ne hid]; exact hok
    rw [New_of_ok m "u1" cfg rnd newSession hok1, newID_of_ne hid]
    exact ⟨rfl, Get_of_lookup_some (SessionMap.lookup_insert_self _ _ _),
      Get_of_lookup_none (SessionMap.lookup_delete_self _ _)⟩

/-- C3: when the session factory returns the error `e` (for the identifier
`New` hands it), `New(id, config)` returns `(nil, e)` and leaves the manager as
it was: the mapping, with any earlier entry under `id`, is the same, `Count`
is the same, and the statistics sink has received no further `Created`. -/
theorem New_factory_error_no_mutation (m : Manager) (id : String) (config : Config)
    (rnd : ReadFull) (newSession : String → Config → TypePtr × Option Error) (e : Error)
    (herr : (newSession (newID id rnd) config).2 = some e) :
    (m.New id config rnd newSession).1 = (none, some e) ∧
    (m.New id config rnd newSession).2.sessions = m.sessions ∧
    (m.New id config rnd newSession).2.Get id = m.Get id ∧
    (m.New id config rnd newSession).2.Count = m.Count ∧
    (m.New id config rnd newSession).2.events = m.events ∧
    (m.New id config rnd newSession).2.createdCount = m.createdCount := by
  rw [New_of_err m id config rnd newSession herr]
  exact ⟨rfl, rfl, rfl, rfl, rfl, rfl⟩

/-- Witness of C3: the manager holds `u1`; a `New("u1", cfg)` whose factory fails
with the error `boom` returns `(nil, boom)` and changes nothing. -/
theorem New_factory_error_no_mutation_witness :
    (factoryErr "boom" (newID "u1" failedRead) ⟨1⟩).2 = some (Error.other "boom") ∧
    ((newAll NewManager.1 [callOk "u1" 7]).New "u1" ⟨1⟩ failedRead (factoryErr "boom")).1 =
      (none, some (Error.other "boom")) ∧
    ((newAll NewManager.1 [callOk "u1" 7]).New "u1" ⟨1⟩ failedRead (factoryErr "boom")).2.Get "u1" =
      (some 7, none) :=
  ⟨rfl,
    (New_factory_error_no_mutation (newAll NewManager.1 [callOk "u1" 7]) "u1" ⟨1⟩ failedRead
      (factoryErr "boom") (Error.other "boom") rfl).1,
    ((New_factory_error_no_mutation (newAll NewManager.1 [callOk "u1" 7]) "u1" ⟨1⟩ failedRead
      (factoryErr "boom") (Error.other "boom") rfl).2.2.1).trans (by decide)⟩

/-- C4, as the code has it: on a freshly constructed manager, after `N`
successful calls of `New` that register under pairwise distinct identifiers
(the caller's id when it is not empty, the generated identifier when it is)
followed by `Del` on `M` pairwise distinct identifiers among those `N`,
`Count()` is `N - M`; and in every state `Count()` is the number of distinct
keys of the mapping. -/
theorem Count_after_News_and_Dels (cs : List NewCall) (ds : List String)
    (hok : ∀ c ∈ cs, (c.newSession c.key c.config).2 = none)
    (hcs : (cs.map NewCall.key).Nodup)
    (hds : ds.Nodup) (hsub : ∀ d ∈ ds, d ∈ cs.map NewCall.key) :
    (delAll (newAll NewManager.1 cs) ds).Count = cs.length - ds.length ∧
    ∀ m : Manager, m.Count = m.sessions.keys.toFinset.card := by
  refine ⟨?_, Count_eq_card_keys⟩
  have hsub1 : ds.toFinset ⊆ (cs.map NewCall.key).toFinset := by
    intro d hd
    exact List.mem_toFinset.2 (hsub d (List.mem_toFinset.1 hd))
  rw [Count_eq_card_keys, keys_delAll, keys_newAll cs _ hok]
  have hempty : (NewManager.1).sessions.keys.toFinset = ∅ := rfl
  rw [hempty, Finset.empty_union, Finset.card_sdiff hsub1, List.toFinset_card_of_nodup hcs,
    List.toFinset_card_of_nodup hds, List.length_map]

/-- Witness of C4: three sessions `a`, `b`, `c` are created on a fresh manager
and `c`, `a` are deleted: one session is left. -/
theorem Count_after_News_and_Dels_witness :
    (delAll (newAll NewManager.1 [callOk "a" 1, callOk "b" 2, callOk "c" 3]) ["c", "a"]).Count =
      3 - 2 :=
  (Count_after_News_and_Dels [callOk "a" 1, callOk "b" 2, callOk "c" 3] ["c", "a"]
    (by intro c hc; simp only [List.mem_cons, List.mem_singleton, List.not_mem_nil, or_false] at hc
        rcases hc with rfl | rfl | rfl <;> rfl)
    (by decide) (by decide) (by decide)).1

/-- C4 as stated fails for an empty id: on a fresh manager `New("", cfg)` with the
draw 0, 17, ..., 238 succeeds and registers under `ABEiM0RVZneImaq7zN3u`, the
`Del("")` that follows removes nothing, and `Count()` is 1, not `1 - 1`. -/
theorem Count_after_New_empty_Del_empty :
    ((delAll (newAll NewManager.1 [callEmpty someRead 1]) [""]).Count = 1 ∧
      (newAll NewManager.1 [callEmpty someRead 1]).Get "ABEiM0RVZneImaq7zN3u" =
        (some 1, none)) ∧
    ¬ (∀ (cs : List NewCall) (ds : List String),
        (∀ c ∈ cs, (c.newSession c.key c.config).2 = none) →
        (cs.map NewCall.id).Nodup → ds.Nodup → (∀ d ∈ ds, d ∈ cs.map NewCall.id) →
        (delAll (newAll NewManager.1 cs) ds).Count = cs.length - ds.length) := by
  refine ⟨by decide, fun h => ?_⟩
  have h1 := h [callEmpty someRead 1] [""]
    (by intro c hc; rw [List.mem_singleton] at hc; subst hc; rfl)
    (by decide) (by decide) (by decide)
  revert h1
  decide

/-- C6: `Del` returns no error, and on the mapping it is idempotent: the mapping
after `Del(id); Del(id)` is the mapping after one `Del(id)`, and `Del(id)` in
a state where `id` is not a key leaves the mapping and `Count()` as they were. -/
theorem Del_idempotent (m : Manager) (id : String) :
    ((m.Del id).Del id).sessions = (m.Del id).sessions ∧
    (id ∉ m.sessions.keys →
      (m.Del id).sessions = m.sessions ∧ (m.Del id).Count = m.Count) := by
  refine ⟨SessionMap.delete_delete _ _, fun h => ?_⟩
  have h1 : (m.Del id).sessions = m.sessions := SessionMap.delete_of_not_mem _ h
  exact ⟨h1, by rw [Manager.Count, h1]; rfl⟩

/-- In every state `Shutdown()` invokes `Stop()` once for each entry of the
mapping, and empties the mapping. -/
theorem Shutdown_stops_every_entry (m : Manager) :
    m.Shutdown.1 = none ∧
    (shutdownLoop m.sessions.entries m).sessions.entries = [] ∧
    m.Shutdown.2.sessions.entries = [] ∧
    m.Shutdown.2.Count = 0 ∧
    (∀ id : String, m.Shutdown.2.Get id = (none, some Error.ErrNoSuchSession)) ∧
    (∀ s : TypePtr, m.Shutdown.2.stopCount s = m.stopCount s + m.sessions.values.count s) :=
  ⟨rfl, shutdownLoop_empties m, rfl, rfl, fun _ => rfl, Shutdown_stopCount m⟩

/-- C5: for every state of the manager, in which every session is stored under
one key only (an entry is only ever written by `New`, with the session its
factory has just constructed), `Shutdown()` returns a nil error, leaves the
mapping empty (the loop deletes every entry, `Count()` is 0 and `Get` fails
with `ErrNoSuchSession` for every id), and invokes `Stop()` exactly once on
each session that was a value of the mapping when it began, and on no other
session. -/
theorem Shutdown_stops_each_session_once (m : Manager)
    (hdistinct : m.sessions.values.Nodup) :
    m.Shutdown.1 = none ∧
    (shutdownLoop m.sessions.entries m).sessions.entries = [] ∧
    m.Shutdown.2.sessions.entries = [] ∧
    m.Shutdown.2.Count = 0 ∧
    (∀ id : String, m.Shutdown.2.Get id = (none, some Error.ErrNoSuchSession)) ∧
    (∀ s : TypePtr, s ∈ m.sessions.values →
      m.Shutdown.2.stopCount s = m.stopCount s + 1) ∧
    (∀ s : TypePtr, s ∉ m.sessions.values → m.Shutdown.2.stopCount s = m.stopCount s) := by
  refine ⟨rfl, shutdownLoop_empties m, rfl, rfl, fun id => rfl, fun s h => ?_, fun s h => ?_⟩
  · rw [Shutdown_stopCount, count_eq_one_of_mem_of_nodup _ s hdistinct h]
  · rw [Shutdown_stopCount, List.count_eq_zero_of_not_mem h, Nat.add_zero]

/-- Witness of C5: the manager holds `a ↦ 1` and `b ↦ 2`; `Shutdown()` stops the session
at address 1 once, the session at address 2 once and the session at address 3,
which is not held, never. -/
theorem Shutdown_stops_each_session_once_witness :
    (newAll NewManager.1 [callOk "a" 1, callOk "b" 2]).sessions.values.Nodup ∧
    (newAll NewManager.1 [callOk "a" 1, callOk "b" 2]).Shutdown.2.Count = 0 ∧
    (newAll NewManager.1 [callOk "a" 1, callOk "b" 2]).Shutdown.2.stopCount (some 1) = 1 ∧
    (newAll NewManager.1 [callOk "a" 1, callOk "b" 2]).Shutdown.2.stopCount (some 2) = 1 ∧
    (newAll NewManager.1 [callOk "a" 1, callOk "b" 2]).Shutdown.2.stopCount (some 3) = 0 :=
  ⟨by decide,
    (Shutdown_stops_each_session_once (newAll NewManager.1 [callOk "a" 1, callOk "b" 2])
      (by decide)).2.2.2.1,
    (Shutdown_stops_each_session_once (newAll NewManager.1 [callOk "a" 1, callOk "b" 2])
      (by decide)).2.2.2.2.2.1 (some 1) (by decide),
    (Shutdown_stops_each_session_once (newAll NewManager.1 [callOk "a" 1, callOk "b" 2])
      (by decide)).2.2.2.2.2.1 (some 2) (by decide),
    (Shutdown_stops_each_session_once (newAll NewManager.1 [callOk "a" 1, callOk "b" 2])
      (by decide)).2.2.2.2.2.2 (some 3) (by decide)⟩

/-- C7, as the code has it: when the non-empty `id` is already a key, bound to
`s_old`, and the factory succeeds with `s_new`, `New(id, config)` returns
`(s_new, nil)`, the `Get(id)` that follows returns `s_new`, `Count()` is
unchanged, the statistics sink receives exactly one `Created` and nothing else,
and `New` invokes `Stop()` on no session, `s_old` included.  Sessions being
distinct objects (no session is stored under two keys and the factory has just
constructed `s_new`), `s_old` is no longer a value of the mapping and a
`Shutdown` that follows does not invoke `Stop()` on it. -/
theorem New_overwrites_silently (m : Manager) (id : String) (config : Config) (rnd : ReadFull)
    (newSession : String → Config → TypePtr × Option Error) (s_old s_new : TypePtr)
    (hid : id ≠ "") (hold : (id, s_old) ∈ m.sessions.entries)
    (hok : newSession id config = (s_new, none)) :
    (m.New id config rnd newSession).1 = (s_new, none) ∧
    (m.New id config rnd newSession).2.Get id = (s_new, none) ∧
    (m.New id config rnd newSession).2.Count = m.Count ∧
    (m.New id config rnd newSession).2.events = m.events ++ [Event.Created] ∧
    (m.New id config rnd newSession).2.createdCount = m.createdCount + 1 ∧
    (∀ s : TypePtr, (m.New id config rnd newSession).2.stopCount s = m.stopCount s) ∧
    (m.sessions.values.Nodup → s_new ∉ m.sessions.values →
      s_old ∉ (m.New id config rnd newSession).2.sessions.values ∧
      (m.New id config rnd newSession).2.Shutdown.2.stopCount s_old = m.stopCount s_old) := by
  have hok1 : newSession (newID id rnd) config = (s_new, none) := by
    rw [newID_of_ne hid]; exact hok
  rw [New_of_ok m id config rnd newSession hok1, newID_of_ne hid]
  have hstop : ∀ s : TypePtr,
      Manager.stopCount { sessions := m.sessions.insert id s_new,
                          events := m.events ++ [Event.Created] } s = m.stopCount s := by
    intro s
    simp [Manager.stopCount, List.count_append]
  refine ⟨rfl, Get_of_lookup_some (SessionMap.lookup_insert_self _ _ _), ?_, rfl, ?_, hstop, ?_⟩
  · rw [Count_eq_card_keys, Count_eq_card_keys, keys_insert]
    exact congrArg Finset.card (Finset.insert_eq_of_mem
      (List.mem_toFinset.2 ((SessionMap.mem_keys_iff _ _).2 ⟨s_old, hold⟩)))
  · simp [Manager.createdCount, List.count_append]
  · intro hdistinct hfresh
    have hne : s_old ≠ s_new := by
      intro h
      exact hfresh (h ▸ List.mem_map.2 ⟨(id, s_old), hold, rfl⟩)
    have hnot : s_old ∉ (m.sessions.insert id s_new).values := by
      intro hmem
      simp only [SessionMap.values, SessionMap.insert, List.map_cons, List.mem_cons] at hmem
      rcases hmem with h | h
      · exact hne h
      · obtain ⟨e, he, hes⟩ := List.mem_map.1 h
        have he1 := List.mem_filter.1 he
        have hk : e.1 ≠ id := by simpa using he1.2
        have hsame : e = (id, s_old) :=
          List.inj_on_of_nodup_map hdistinct he1.1 hold hes
        exact hk (by rw [hsame])
    refine ⟨hnot, ?_⟩
    rw [Shutdown_stopCount]
    show _ + List.count s_old (m.sessions.insert id s_new).values = _
    rw [List.count_eq_zero_of_not_mem hnot, Nat.add_zero, hstop]

/-- Witness of C7: the manager holds `u1 ↦ 1` and `u2 ↦ 2`; `New("u1", cfg)` with a
factory that returns the session at address 3 replaces the entry of `u1`, and
the `Shutdown` that follows does not stop the session at address 1. -/
theorem New_overwrites_silently_witness :
    ((newAll NewManager.1 [callOk "u1" 1, callOk "u2" 2]).New "u1" ⟨0⟩ failedRead
        (factoryOk 3)).2.Get "u1" = (some 3, none) ∧
    ((newAll NewManager.1 [callOk "u1" 1, callOk "u2" 2]).New "u1" ⟨0⟩ failedRead
        (factoryOk 3)).2.Count = 2 ∧
    ((newAll NewManager.1 [callOk "u1" 1, callOk "u2" 2]).New "u1" ⟨0⟩ failedRead
        (factoryOk 3)).2.Shutdown.2.stopCount (some 1) = 0 :=
  ⟨(New_overwrites_silently (newAll NewManager.1 [callOk "u1" 1, callOk "u2" 2]) "u1" ⟨0⟩
      failedRead (factoryOk 3) (some 1) (some 3) (by decide) (by decide) rfl).2.1,
   (New_overwrites_silently (newAll NewManager.1 [callOk "u1" 1, callOk "u2" 2]) "u1" ⟨0⟩
      failedRead (factoryOk 3) (some 1) (some 3) (by decide) (by decide) rfl).2.2.1,
   ((New_overwrites_silently (newAll NewManager.1 [callOk "u1" 1, callOk "u2" 2]) "u1" ⟨0⟩
      failedRead (factoryOk 3) (some 1) (some 3) (by decide) (by decide) rfl).2.2.2.2.2.2
      (by decide) (by decide)).2⟩

/-- C7 as stated fails when the key is the empty identifier: the manager holds
`"" ↦ 1`; `New("", cfg)` with the draw 0, 17, ..., 238, answered with the
session at address 2, registers under `ABEiM0RVZneImaq7zN3u`: it replaces
nothing, `Get("")` still returns the session at address 1 and `Count()` goes
from 1 to 2. -/
theorem New_empty_key_not_replaced :
    ((("", some 1) : String × TypePtr) ∈
        (newAll NewManager.1 [callEmpty failedRead 1]).sessions.entries ∧
      (newAll NewManager.1 [callEmpty failedRead 1]).Count = 1 ∧
      ((newAll NewManager.1 [callEmpty failedRead 1]).New "" ⟨0⟩ someRead (factoryOk 2)).1 =
        (some 2, none) ∧
      ((newAll NewManager.1 [callEmpty failedRead 1]).New "" ⟨0⟩ someRead
        (factoryOk 2)).2.Get "" = (some 1, none) ∧
      ((newAll NewManager.1 [callEmpty failedRead 1]).New "" ⟨0⟩ someRead
        (factoryOk 2)).2.Count = 2) ∧
    ¬ (∀ (m : Manager) (id : String) (config : Config) (rnd : ReadFull)
        (newSession : String → Config → TypePtr × Option Error) (s_old s_new : TypePtr),
        (id, s_old) ∈ m.sessions.entries →
        newSession (newID id rnd) config = (s_new, none) →
        (m.New id config rnd newSession).1 = (s_new, none) ∧
        (m.New id config rnd newSession).2.Get id = (s_new, none) ∧
        (m.New id config rnd newSession).2.Count = m.Count) := by
  refine ⟨by decide, fun h => ?_⟩
  have h1 := (h (newAll NewManager.1 [callEmpty failedRead 1]) "" ⟨0⟩ someRead
    (factoryOk 2) (some 1) (some 2) (by decide) rfl).2.2
  revert h1
  decide

/-- C8: the code at the input of the claim.  `New("", cfg)` on a fresh manager,
with a random read that fails and a factory that succeeds with the session at
address 7: the generated identifier is empty, and `New` still returns the
session with a nil error, registers it under the key `""` (absent before) and
notifies the sink of one creation. -/
theorem New_empty_id_failed_read_registers :
    genSessionID failedRead = "" ∧
    NewManager.1.Get "" = (none, some Error.ErrNoSuchSession) ∧
    (NewManager.1.New "" ⟨0⟩ failedRead (factoryOk 7)).1 = (some 7, none) ∧
    (NewManager.1.New "" ⟨0⟩ failedRead (factoryOk 7)).2.Get "" = (some 7, none) ∧
    (NewManager.1.New "" ⟨0⟩ failedRead (factoryOk 7)).2.Count = 1 ∧
    (NewManager.1.New "" ⟨0⟩ failedRead (factoryOk 7)).2.createdCount = 1 := by
  decide

/-- C9: `genSessionID` returns the empty string exactly when the read of the 15
random bytes fails: it is `""` on every failed read and non-empty on every
successful read. -/
theorem genSessionID_empty_iff_read_failed (rnd : ReadFull) :
    (genSessionID rnd = "" ↔ ∃ err, rnd = ReadFull.fail err) ∧
    (∀ err : Error, genSessionID (ReadFull.fail err) = "") ∧
    (∀ (b : List (Fin 256)) (h : b.length = 15), genSessionID (ReadFull.ok b h) ≠ "") := by
  have hok : ∀ (b : List (Fin 256)) (h : b.length = 15), genSessionID (ReadFull.ok b h) ≠ "" := by
    intro b h heq
    have hlen := (encode_of_length_mul_three 5 b h).1
    have hdata : encode b = [] := congrArg String.data heq
    rw [hdata] at hlen
    simp at hlen
  refine ⟨?_, fun _ => rfl, hok⟩
  cases rnd with
  | fail err => exact ⟨fun _ => ⟨err, rfl⟩, fun _ => rfl⟩
  | ok b h =>
    constructor
    · intro heq
      exact absurd heq (hok b h)
    · rintro ⟨err, herr⟩
      cases herr

/-- C10: for every 15 bytes delivered by the random source, `genSessionID` returns
their `base64.URLEncoding` encoding, which is the URL-safe base 64 encoding of
RFC 4648 of these bytes: 20 characters, each among `A`-`Z`, `a`-`z`, `0`-`9`,
`-` and `_`, none of them `=`, `+` or `/`, from which the bytes can be told
(no other 15 bytes give the same identifier). -/
theorem genSessionID_url_safe (b : List (Fin 256)) (h : b.length = 15) :
    genSessionID (ReadFull.ok b h) = EncodeToString b ∧
    (genSessionID (ReadFull.ok b h)).data = rfc4648 b ∧
    (genSessionID (ReadFull.ok b h)).length = 20 ∧
    (∀ c ∈ (genSessionID (ReadFull.ok b h)).data,
      isURLSafe c ∧ c ≠ '=' ∧ c ≠ '+' ∧ c ≠ '/') ∧
    (∀ (b1 : List (Fin 256)) (h1 : b1.length = 15),
      genSessionID (ReadFull.ok b1 h1) = genSessionID (ReadFull.ok b h) → b1 = b) := by
  obtain ⟨hlen, hmem⟩ := encode_of_length_mul_three 5 b h
  refine ⟨rfl, encode_eq_rfc4648 b, hlen, fun c hc => ?_,
    fun b1 h1 heq => genSessionID_ok_inj h1 h heq⟩
  have hc1 : c ∈ encodeURL := hmem c hc
  exact ⟨isURLSafe_of_mem_encodeURL c hc1, not_special_of_mem_encodeURL c hc1⟩

/-- Witness of C10: the 15 bytes 0, 17, ..., 238 give `ABEiM0RVZneImaq7zN3u`, which is
their encoding by RFC 4648. -/
theorem genSessionID_url_safe_witness :
    genSessionID someRead = "ABEiM0RVZneImaq7zN3u" ∧
    rfc4648 [0, 17, 34, 51, 68, 85, 102, 119, 136, 153, 170, 187, 204, 221, 238] =
      "ABEiM0RVZneImaq7zN3u".data ∧
    (genSessionID someRead).length = 20 :=
  ⟨by decide, by decide,
    (genSessionID_url_safe
      [0, 17, 34, 51, 68, 85, 102, 119, 136, 153, 170, 187, 204, 221, 238] rfl).2.2.1⟩

/-- C11, as the code has it: identifier generation is injective in the random
bytes.  For two different 15-byte draws the generated identifiers differ, so two calls
`New("", config)` with these draws and succeeding factories register their
sessions under two different keys and the second does not overwrite the first:
afterwards each session is returned by `Get` under its own identifier, and
`Count()` has grown by 2 when neither identifier was a key before, as on a
freshly constructed manager. -/
theorem genSessionID_injective (m : Manager) (b1 b2 : List (Fin 256))
    (h1 : b1.length = 15) (h2 : b2.length = 15) (config : Config)
    (f1 f2 : String → Config → TypePtr × Option Error) (s1 s2 : TypePtr)
    (hne : b1 ≠ b2)
    (hok1 : f1 (genSessionID (ReadFull.ok b1 h1)) config = (s1, none))
    (hok2 : f2 (genSessionID (ReadFull.ok b2 h2)) config = (s2, none)) :
    genSessionID (ReadFull.ok b1 h1) ≠ genSessionID (ReadFull.ok b2 h2) ∧
    ((m.New "" config (ReadFull.ok b1 h1) f1).2.New "" config (ReadFull.ok b2 h2) f2).2.Get
        (genSessionID (ReadFull.ok b1 h1)) = (s1, none) ∧
    ((m.New "" config (ReadFull.ok b1 h1) f1).2.New "" config (ReadFull.ok b2 h2) f2).2.Get
        (genSessionID (ReadFull.ok b2 h2)) = (s2, none) ∧
    (genSessionID (ReadFull.ok b1 h1) ∉ m.sessions.keys →
      genSessionID (ReadFull.ok b2 h2) ∉ m.sessions.keys →
      ((m.New "" config (ReadFull.ok b1 h1) f1).2.New "" config (ReadFull.ok b2 h2) f2).2.Count =
        m.Count + 2) ∧
    ((NewManager.1.New "" config (ReadFull.ok b1 h1) f1).2.New "" config
        (ReadFull.ok b2 h2) f2).2.Count = 2 := by
  have hk : genSessionID (ReadFull.ok b1 h1) ≠ genSessionID (ReadFull.ok b2 h2) :=
    fun h => hne (genSessionID_ok_inj h1 h2 h)
  have hcount : ∀ m0 : Manager, genSessionID (ReadFull.ok b1 h1) ∉ m0.sessions.keys →
      genSessionID (ReadFull.ok b2 h2) ∉ m0.sessions.keys →
      ((m0.New "" config (ReadFull.ok b1 h1) f1).2.New "" config (ReadFull.ok b2 h2) f2).2.Count =
        m0.Count + 2 := by
    intro m0 hn1 hn2
    rw [New_of_ok m0 "" config _ f1 (by rw [newID_empty]; exact hok1),
      New_of_ok _ "" config _ f2 (by rw [newID_empty]; exact hok2), newID_empty, newID_empty,
      Count_eq_card_keys, Count_eq_card_keys, keys_insert, keys_insert,
      Finset.card_insert_of_not_mem, Finset.card_insert_of_not_mem]
    · exact fun h => hn1 (List.mem_toFinset.1 h)
    · intro h
      rcases Finset.mem_insert.1 h with h | h
      · exact hk h.symm
      · exact hn2 (List.mem_toFinset.1 h)
  refine ⟨hk, ?_, ?_, hcount m, hcount NewManager.1 (by simp [NewManager, SessionMap.keys,
    SessionMap.empty]) (by simp [NewManager, SessionMap.keys, SessionMap.empty])⟩
  · rw [New_of_ok m "" config _ f1 (by rw [newID_empty]; exact hok1),
      New_of_ok _ "" config _ f2 (by rw [newID_empty]; exact hok2), newID_empty, newID_empty,
      Get_insert_ne _ s2 _ hk]
    exact Get_of_lookup_some (SessionMap.lookup_insert_self _ _ _)
  · rw [New_of_ok m "" config _ f1 (by rw [newID_empty]; exact hok1),
      New_of_ok _ "" config _ f2 (by rw [newID_empty]; exact hok2), newID_empty, newID_empty]
    exact Get_of_lookup_some (SessionMap.lookup_insert_self _ _ _)

/-- Witness of C11: on a fresh manager, `New("", cfg)` with the draw 0, 17, ..., 238
and then with the draw of fifteen bytes 255 registers two sessions, under
`ABEiM0RVZneImaq7zN3u` and `____________________`. -/
theorem genSessionID_injective_witness :
    genSessionID someRead = "ABEiM0RVZneImaq7zN3u" ∧
    genSessionID otherRead = "____________________" ∧
    genSessionID someRead ≠ genSessionID otherRead ∧
    ((NewManager.1.New "" ⟨0⟩ someRead (factoryOk 1)).2.New "" ⟨0⟩ otherRead
        (factoryOk 2)).2.Count = 2 :=
  ⟨by decide, by decide,
    (genSessionID_injective NewManager.1
      [0, 17, 34, 51, 68, 85, 102, 119, 136, 153, 170, 187, 204, 221, 238]
      [255, 255, 255, 255, 255, 255, 255, 255, 255, 255, 255, 255, 255, 255, 255]
      rfl rfl ⟨0⟩ (factoryOk 1) (factoryOk 2) (some 1) (some 2) (by decide) rfl rfl).1,
    (genSessionID_injective NewManager.1
      [0, 17, 34, 51, 68, 85, 102, 119, 136, 153, 170, 187, 204, 221, 238]
      [255, 255, 255, 255, 255, 255, 255, 255, 255, 255, 255, 255, 255, 255, 255]
      rfl rfl ⟨0⟩ (factoryOk 1) (factoryOk 2) (some 1) (some 2) (by decide) rfl rfl).2.2.2.2⟩

/-- C11 as stated fails on the growth of `Count()`: the manager already holds
`ABEiM0RVZneImaq7zN3u`; two calls `New("", cfg)`, with the draw 0, 17, ..., 238
and with the draw of fifteen bytes 255, register under two different keys, but
the first of them replaces the entry already held and `Count()` goes from 1 to
2, not to 3. -/
theorem New_twice_Count_grows_by_one :
    ((newAll NewManager.1 [callOk "ABEiM0RVZneImaq7zN3u" 9]).Count = 1 ∧
      genSessionID someRead ≠ genSessionID otherRead ∧
      (((newAll NewManager.1 [callOk "ABEiM0RVZneImaq7zN3u" 9]).New "" ⟨0⟩ someRead
        (factoryOk 1)).2.New "" ⟨0⟩ otherRead (factoryOk 2)).2.Count = 2) ∧
    ¬ (∀ (m : Manager) (b1 b2 : List (Fin 256)) (h1 : b1.length = 15) (h2 : b2.length = 15)
        (config : Config) (f1 f2 : String → Config → TypePtr × Option Error)
        (s1 s2 : TypePtr), b1 ≠ b2 →
        f1 (genSessionID (ReadFull.ok b1 h1)) config = (s1, none) →
        f2 (genSessionID (ReadFull.ok b2 h2)) config = (s2, none) →
        ((m.New "" config (ReadFull.ok b1 h1) f1).2.New "" config
          (ReadFull.ok b2 h2) f2).2.Count = m.Count + 2) := by
  refine ⟨by decide, fun h => ?_⟩
  have h1 := h (newAll NewManager.1 [callOk "ABEiM0RVZneImaq7zN3u" 9])
    [0, 17, 34, 51, 68, 85, 102, 119, 136, 153, 170, 187, 204, 221, 238]
    [255, 255, 255, 255, 255, 255, 255, 255, 255, 255, 255, 255, 255, 255, 255]
    rfl rfl ⟨0⟩ (factoryOk 1) (factoryOk 2) (some 1) (some 2) (by decide) rfl rfl
  revert h1
  decide

/-- C12: for every state of the manager and every `id`, a key of the mapping or
not, `Del(id)` makes exactly one call on its collaborators, `stat.Removed()`:
the sink receives one `Removed` more, no `Created`, and no session is stopped. -/
theorem Del_notifies_Removed_once (m : Manager) (id : String) :
    (m.Del id).events = m.events ++ [Event.Removed] ∧
    (m.Del id).removedCount = m.removedCount + 1 ∧
    (m.Del id).createdCount = m.createdCount ∧
    (∀ s : TypePtr, (m.Del id).stopCount s = m.stopCount s) := by
  refine ⟨rfl, ?_, ?_, fun s => ?_⟩
  · simp [Manager.removedCount, Manager.Del, List.count_append]
  · simp [Manager.createdCount, Manager.Del, List.count_append]
  · simp [Manager.stopCount, Manager.Del, List.count_append]

/-- C15: for every state of the manager and every `id`, registered or not,
`Save(id)` returns a nil error and leaves the manager as it was: the mapping,
`Count()` and the calls received by the statistics sink are the same. -/
theorem Save_changes_nothing (m : Manager) (id : String) :
    (m.Save id).1 = none ∧
    (m.Save id).2.sessions = m.sessions ∧
    (m.Save id).2.Count = m.Count ∧
    (m.Save id).2.events = m.events ∧
    (m.Save id).2.createdCount = m.createdCount ∧
    (m.Save id).2.removedCount = m.removedCount ∧
    (∀ id1 : String, (m.Save id).2.Get id1 = m.Get id1) :=
  ⟨rfl, rfl, rfl, rfl, rfl, rfl, fun _ => rfl⟩

/-- C19: `Shutdown` makes no call on the statistics sink.  The numbers of
`Created` and of `Removed` received stay as they were while `Count()` drops to
0, so when created minus removed was `Count()` before (`k` sessions held), it
exceeds `Count()` by `k` afterwards; this happens after two `New` on a fresh
manager. -/
theorem Shutdown_sends_no_notification (m : Manager) :
    m.Shutdown.2.createdCount = m.createdCount ∧
    m.Shutdown.2.removedCount = m.removedCount ∧
    m.Shutdown.2.Count = 0 ∧
    (m.createdCount - m.removedCount = m.Count →
      m.Shutdown.2.createdCount - m.Shutdown.2.removedCount = m.Shutdown.2.Count + m.Count) ∧
    ((newAll NewManager.1 [callOk "a" 1, callOk "b" 2]).Count = 2 ∧
      (newAll NewManager.1 [callOk "a" 1, callOk "b" 2]).Shutdown.2.Count = 0 ∧
      (newAll NewManager.1 [callOk "a" 1, callOk "b" 2]).Shutdown.2.createdCount = 2 ∧
      (newAll NewManager.1 [callOk "a" 1, callOk "b" 2]).Shutdown.2.removedCount = 0) := by
  refine ⟨Shutdown_createdCount m, Shutdown_removedCount m, rfl, fun h => ?_, by decide⟩
  rw [Shutdown_createdCount, Shutdown_removedCount, h]
  show m.Count = 0 + m.Count
  omega

/-- C13: in every state reached from a freshly constructed manager by a finite
sequence of `New`, `Get`, `Del`, `Save`, `Count` and `Shutdown`, every key of
the mapping is bound to a non-nil session, provided the session factory of
every `New` returns a non-nil session whenever it returns a nil error. -/
theorem reachable_sessions_non_nil (ops : List Op) (hops : ∀ op ∈ ops, op.factoryNonNil) :
    ∀ e ∈ (NewManager.1.run ops).sessions.entries, e.2 ≠ none :=
  run_preserves_non_nil ops NewManager.1 hops (fun e he => by cases he)

/-- Witness of C13: after the nine calls of `someOps` the manager holds `b`, bound to
the session at address 3, which is not nil. -/
theorem reachable_sessions_non_nil_witness :
    (NewManager.1.run someOps).sessions.entries = [("b", some 3)] ∧
    (("b", (some 3 : TypePtr)) : String × TypePtr).2 ≠ none :=
  ⟨by decide,
    reachable_sessions_non_nil someOps
      (by
        intro op hop
        simp only [someOps, List.mem_cons, List.mem_singleton, List.not_mem_nil, or_false] at hop
        rcases hop with rfl | rfl | rfl | rfl | rfl | rfl | rfl | rfl | rfl <;>
          simp [Op.factoryNonNil, factoryOk, factoryErr])
      ("b", some 3) (by decide)⟩

/-- C14: for every single call on the manager and every `id`: if `id` is not a key
before the call and is one after it, the call was a successful `New` that
registered under `id`; if `id` is a key before and not after, the call was
`Del(id)` or `Shutdown`.  `Get`, `Save` and `Count` leave the mapping as it was. -/
theorem only_New_adds_only_Del_Shutdown_remove (m : Manager) (op : Op) (id : String) :
    (id ∉ m.sessions.keys → id ∈ (m.step op).sessions.keys →
      ∃ (i : String) (config : Config) (rnd : ReadFull)
        (f : String → Config → TypePtr × Option Error),
        op = Op.New i config rnd f ∧ newID i rnd = id ∧
          (m.New i config rnd f).1.2 = none) ∧
    (id ∈ m.sessions.keys → id ∉ (m.step op).sessions.keys →
      op = Op.Del id ∨ op = Op.Shutdown) ∧
    (m.step (Op.Get id)).sessions = m.sessions ∧
    (m.step (Op.Save id)).sessions = m.sessions ∧
    (m.step Op.Count).sessions = m.sessions := by
  refine ⟨?_, ?_, rfl, rfl, rfl⟩
  · intro hbefore hafter
    cases op with
    | New i config rnd f =>
      rcases New_cases m i config rnd f with ⟨err, _, h⟩ | ⟨s, _, h⟩
      · simp only [Manager.step, h] at hafter
        exact absurd hafter hbefore
      · simp only [Manager.step, h] at hafter
        rcases (mem_keys_insert _ _ _ _).1 hafter with hk | hk
        · exact ⟨i, config, rnd, f, rfl, hk.symm, by rw [h]⟩
        · exact absurd hk hbefore
    | Get i => exact absurd hafter hbefore
    | Del i => exact absurd ((mem_keys_delete _ _ _).1 hafter).2 hbefore
    | Save i => exact absurd hafter hbefore
    | Count => exact absurd hafter hbefore
    | Shutdown => cases hafter
  · intro hbefore hafter
    cases op with
    | New i config rnd f =>
      rcases New_cases m i config rnd f with ⟨err, _, h⟩ | ⟨s, _, h⟩
      · simp only [Manager.step, h] at hafter
        exact absurd hbefore hafter
      · simp only [Manager.step, h] at hafter
        exact absurd ((mem_keys_insert _ _ _ _).2 (Or.inr hbefore)) hafter
    | Get i => exact absurd hbefore hafter
    | Del i =>
      by_cases hid : id = i
      · exact Or.inl (by rw [hid])
      · exact absurd ((mem_keys_delete _ _ _).2 ⟨hid, hbefore⟩) hafter
    | Save i => exact absurd hbefore hafter
    | Count => exact absurd hbefore hafter
    | Shutdown => exact Or.inr rfl

/-- C17: for every successful `New(id, config)` the key under which the session is
stored is the identifier handed to the factory: the caller's `id` when it is
not empty, the generated identifier when it is.  `New` consults the factory
only at that identifier.  After a successful generation the session is returned
by `Get` under the generated identifier, which is not empty, and the entry of
the empty key is as it was. -/
theorem New_key_is_factory_id (m : Manager) (id : String) (config : Config) (rnd : ReadFull)
    (f : String → Config → TypePtr × Option Error) (s : TypePtr)
    (hok : f (newID id rnd) config = (s, none)) :
    (m.New id config rnd f).1 = (s, none) ∧
    (m.New id config rnd f).2.sessions = m.sessions.insert (newID id rnd) s ∧
    (m.New id config rnd f).2.Get (newID id rnd) = (s, none) ∧
    (id ≠ "" → newID id rnd = id) ∧
    (id = "" → newID id rnd = genSessionID rnd) ∧
    (∀ g : String → Config → TypePtr × Option Error,
      g (newID id rnd) config = f (newID id rnd) config →
      m.New id config rnd g = m.New id config rnd f) ∧
    (∀ (b : List (Fin 256)) (h : b.length = 15), id = "" → rnd = ReadFull.ok b h →
      newID id rnd ≠ "" ∧
      (m.New id config rnd f).2.Get (genSessionID rnd) = (s, none) ∧
      (m.New id config rnd f).2.Get "" = m.Get "") := by
  rw [New_of_ok m id config rnd f hok]
  refine ⟨rfl, rfl, Get_of_lookup_some (SessionMap.lookup_insert_self _ _ _),
    fun h => newID_of_ne h rnd, fun h => by rw [h, newID_empty],
    fun g hg => (New_congr_factory m id config rnd f g hg).trans
      (New_of_ok m id config rnd f hok), ?_⟩
  intro b h hid hrnd
  subst hid
  subst hrnd
  have hne : newID "" (ReadFull.ok b h) ≠ "" := by
    rw [newID_empty]; exact genSessionID_ok_ne_empty b h
  refine ⟨hne, ?_, Get_insert_ne m s _ (Ne.symm hne)⟩
  rw [← newID_empty]
  exact Get_of_lookup_some (SessionMap.lookup_insert_self _ _ _)

/-- Witness of C17: on a fresh manager `New("", cfg)` with the draw 0, 17, ..., 238
stores the session under `ABEiM0RVZneImaq7zN3u`. -/
theorem New_key_is_factory_id_witness :
    newID "" someRead = "ABEiM0RVZneImaq7zN3u" ∧
    (NewManager.1.New "" ⟨0⟩ someRead (factoryOk 7)).2.Get (newID "" someRead) =
      (some 7, none) :=
  ⟨by decide, (New_key_is_factory_id NewManager.1 "" ⟨0⟩ someRead (factoryOk 7) (some 7) rfl).2.2.1⟩

/-- C18, as the code has it: `New(id, config)` touches only the entry of the
identifier it works with (`id` when it is not empty, the generated identifier
when it is) and `Del(id)` only the entry of `id`: for every other `id1` the
result of `Get(id1)` is the same before and after the call, whether the call
succeeds or fails. -/
theorem New_Del_leave_other_keys (m : Manager) (id : String) (config : Config) (rnd : ReadFull)
    (f : String → Config → TypePtr × Option Error) (id1 : String) :
    (id1 ≠ newID id rnd → (m.New id config rnd f).2.Get id1 = m.Get id1) ∧
    (id ≠ "" → id1 ≠ id → (m.New id config rnd f).2.Get id1 = m.Get id1) ∧
    (id1 ≠ id → (m.Del id).Get id1 = m.Get id1) := by
  have hnew : id1 ≠ newID id rnd → (m.New id config rnd f).2.Get id1 = m.Get id1 := by
    intro hne
    rcases New_cases m id config rnd f with ⟨err, _, h⟩ | ⟨s, _, h⟩
    · rw [h]
    · rw [h]
      exact Get_insert_ne m s _ hne
  refine ⟨hnew, fun hid hne => hnew ?_, fun hne => Get_Del_ne m hne⟩
  rw [newID_of_ne hid]
  exact hne

/-- C18 as stated fails for an empty `id`: on a fresh manager `New("", cfg)` with
the draw 0, 17, ..., 238 changes the result of `Get("ABEiM0RVZneImaq7zN3u")`,
an identifier different from `""`. -/
theorem New_empty_id_changes_generated_key :
    ("ABEiM0RVZneImaq7zN3u" ≠ "" ∧
      NewManager.1.Get "ABEiM0RVZneImaq7zN3u" = (none, some Error.ErrNoSuchSession) ∧
      (NewManager.1.New "" ⟨0⟩ someRead (factoryOk 7)).2.Get "ABEiM0RVZneImaq7zN3u" =
        (some 7, none)) ∧
    ¬ (∀ (m : Manager) (id : String) (config : Config) (rnd : ReadFull)
        (f : String → Config → TypePtr × Option Error) (id1 : String),
        id1 ≠ id → (m.New id config rnd f).2.Get id1 = m.Get id1) := by
  refine ⟨by decide, fun h => ?_⟩
  have h1 := h NewManager.1 "" ⟨0⟩ someRead (factoryOk 7) "ABEiM0RVZneImaq7zN3u" (by decide)
  revert h1
  decide

end session
